import Mathlib

/-!
# Verification of the algorand-builder TEAL runtime against its specification

Shallow embedding of the `@algo-builder/runtime` execution engine and TEAL
opcode set (packages/runtime/src/interpreter/opcode-list.ts,
packages/runtime/src/index.ts, packages/algorand-js/src/runtime/account.ts),
with theorems settling the specification claims about arithmetic opcodes,
byte-string opcodes, application-state opcodes, the transaction execution
engine and its atomicity discipline.

Machine integers (`bigint` in the source) are modelled as `Nat`; JavaScript
`number` balances are modelled as `Int` (they may go negative in the old
`Runtime.transferAlgo`, which performs no minimum-balance check).
Byte strings (`Uint8Array`) are modelled as `List Nat` with entries `< 256`.
-/

namespace AlgoBuilder

/-- `MAX_UINT64 = 2n ** 64n - 1n` from `lib/constants.ts`. -/
def MAX_UINT64 : Nat := 2 ^ 64 - 1

/-- `MAX_UINT8 = 255` from `lib/constants.ts`. -/
def MAX_UINT8 : Nat := 255

/-- A TEAL stack element: `StackElem = bigint | Uint8Array` from `types.ts`. -/
inductive StackElem where
  | uint (n : Nat)
  | bytes (bs : List Nat)
deriving DecidableEq, Repr

/-- The TEAL evaluation stack; the head of the list is the top of the stack. -/
abbrev TEALStack := List StackElem

/-- Error kinds thrown by the runtime (`errors-list.ts`). -/
inductive ErrCode where
  | INVALID_TYPE
  | UINT64_OVERFLOW
  | UINT64_UNDERFLOW
  | ASSERT_STACK_LENGTH
  | INVALID_UINT8
  | SUBSTRING_END_BEFORE_START
  | SUBSTRING_RANGE_BEYOND
  | LONG_INPUT_ERROR
  | REJECTED_BY_LOGIC
  | TEAL_ENCOUNTERED_ERR
  | INDEX_OUT_OF_BOUND
  | ACCOUNT_DOES_NOT_EXIST
  | APP_NOT_FOUND
  | INSUFFICIENT_ACCOUNT_BALANCE
  | INVALID_TRANSACTION_PARAMS
  | LOGIC_SIGNATURE_NOT_FOUND
  | LOGIC_SIGNATURE_VALIDATION_FAILED
  | MAX_GROUP_SIZE_EXCEEDED
  | OTHER (n : Nat)
deriving DecidableEq, Repr

/-- Modelled from the spec: each fatal condition has a stable numeric code;
`REJECTED_BY_LOGIC` is error number 1007 (spec §7 and the source comment
"Clear call is executed only if error is (rejected by logic i.e error number
1007)" in `index.ts`).  The other numbers are only required to be distinct
from 1007, which the spec guarantees by giving every kind its own code. -/
def ErrCode.number : ErrCode → Nat
  | .INVALID_TYPE => 1003
  | .UINT64_OVERFLOW => 1001
  | .UINT64_UNDERFLOW => 1002
  | .ASSERT_STACK_LENGTH => 1015
  | .INVALID_UINT8 => 1016
  | .SUBSTRING_END_BEFORE_START => 1017
  | .SUBSTRING_RANGE_BEYOND => 1018
  | .LONG_INPUT_ERROR => 1019
  | .REJECTED_BY_LOGIC => 1007
  | .TEAL_ENCOUNTERED_ERR => 1009
  | .INDEX_OUT_OF_BOUND => 1008
  | .ACCOUNT_DOES_NOT_EXIST => 1305
  | .APP_NOT_FOUND => 1306
  | .INSUFFICIENT_ACCOUNT_BALANCE => 1307
  | .INVALID_TRANSACTION_PARAMS => 1300
  | .LOGIC_SIGNATURE_NOT_FOUND => 1301
  | .LOGIC_SIGNATURE_VALIDATION_FAILED => 1302
  | .MAX_GROUP_SIZE_EXCEEDED => 1303
  | .OTHER n => 2000 + n

namespace Op

/-- `Op.assertBigInt` (`opcode.ts`): a stack element must be a `bigint`,
otherwise `INVALID_TYPE` is thrown. -/
def assertBigInt : StackElem → Except ErrCode Nat
  | .uint n => .ok n
  | .bytes _ => .error .INVALID_TYPE

/-- `Op.assertBytes` (`opcode.ts`): a stack element must be a `Uint8Array`,
otherwise `INVALID_TYPE` is thrown. -/
def assertBytes : StackElem → Except ErrCode (List Nat)
  | .uint _ => .error .INVALID_TYPE
  | .bytes bs => .ok bs

/-- `Op.checkOverflow` (`opcode.ts`): `if (num > MAX_UINT64) throw UINT64_OVERFLOW`. -/
def checkOverflow (num : Nat) : Except ErrCode Unit :=
  if num > MAX_UINT64 then .error .UINT64_OVERFLOW else .ok ()

/-- `Op.assertUint8` (`opcode.ts`): `if (a < MIN_UINT8 || a > MAX_UINT8) throw INVALID_UINT8`. -/
def assertUint8 (a : Nat) : Except ErrCode Nat :=
  if a > MAX_UINT8 then .error .INVALID_UINT8 else .ok a

/-- `Op.subString` (`algorand-js/src/runtime/account.ts`, also used by the
`runtime` package's `Substring`/`Substring3` opcodes):
fail with `SUBSTRING_END_BEFORE_START` if `end < start`, with
`SUBSTRING_RANGE_BEYOND` if `start > byteString.length || end > byteString.length`,
otherwise return `byteString.slice(start, end)`. -/
def subString (start finish : Nat) (byteString : List Nat) :
    Except ErrCode (List Nat) :=
  if finish < start then .error .SUBSTRING_END_BEFORE_START
  else if start > byteString.length ∨ finish > byteString.length then
    .error .SUBSTRING_RANGE_BEYOND
  else .ok ((byteString.drop start).take (finish - start))

end Op

/-- `Addw.execute` (`opcode-list.ts`): pop two uint64 values `A` (top) and `B`,
compute `C = A + B`; if `C > MAX_UINT64` push `1` then `C - MAX_UINT64 - 1`,
otherwise push `0` then `C`.  (The source writes `valueC -= MAX_UINT64` followed
by `stack.push(valueC - 1n)`.) -/
def Addw.execute (stack : TEALStack) : Except ErrCode TEALStack :=
  match stack with
  | a :: b :: rest => do
    let valueA ← Op.assertBigInt a
    let valueB ← Op.assertBigInt b
    let valueC := valueA + valueB
    if valueC > MAX_UINT64 then
      .ok (.uint (valueC - MAX_UINT64 - 1) :: .uint 1 :: rest)
    else
      .ok (.uint valueC :: .uint 0 :: rest)
  | _ => .error .ASSERT_STACK_LENGTH

/-- `Mulw.execute` (`opcode-list.ts`): pop two uint64 values, compute the
128-bit product, check `low = result & MAX_UINT64` and `high = result >> 64`
for overflow, push `high` then `low`. -/
def Mulw.execute (stack : TEALStack) : Except ErrCode TEALStack :=
  match stack with
  | a :: b :: rest => do
    let valueA ← Op.assertBigInt a
    let valueB ← Op.assertBigInt b
    let result := valueA * valueB
    let low := result &&& MAX_UINT64
    let _ ← Op.checkOverflow low
    let high := result >>> 64
    let _ ← Op.checkOverflow high
    .ok (.uint low :: .uint high :: rest)
  | _ => .error .ASSERT_STACK_LENGTH

/-- `encodeUint64` (algosdk, used by `Itob.execute`): the 8-byte big-endian
representation of a uint64. -/
def encodeUint64 (x : Nat) : List Nat :=
  [x / 256 ^ 7 % 256, x / 256 ^ 6 % 256, x / 256 ^ 5 % 256, x / 256 ^ 4 % 256,
   x / 256 ^ 3 % 256, x / 256 ^ 2 % 256, x / 256 % 256, x % 256]

/-- `decodeUint64` (algosdk, used by `Btoi.execute`): big-endian decoding of a
byte string of length at most 8; a longer input fails (spec §4.3: "btoi
(bytes of length ≤ 8 → u64; longer fails)"). -/
def decodeUint64 (bs : List Nat) : Except ErrCode Nat :=
  if bs.length > 8 then .error .LONG_INPUT_ERROR
  else .ok (bs.foldl (fun acc b => acc * 256 + b) 0)

/-- `Itob.execute` (`opcode-list.ts`): pop a uint64, push its 8-byte
big-endian encoding. -/
def Itob.execute (stack : TEALStack) : Except ErrCode TEALStack :=
  match stack with
  | a :: rest => do
    let uint64 ← Op.assertBigInt a
    .ok (.bytes (encodeUint64 uint64) :: rest)
  | _ => .error .ASSERT_STACK_LENGTH

/-- `Btoi.execute` (`opcode-list.ts`): pop a byte string, decode it big-endian
(at most 8 bytes), push the uint64. -/
def Btoi.execute (stack : TEALStack) : Except ErrCode TEALStack :=
  match stack with
  | a :: rest => do
    let bytes ← Op.assertBytes a
    let uint64 ← decodeUint64 bytes
    .ok (.uint uint64 :: rest)
  | _ => .error .ASSERT_STACK_LENGTH

/-- `Substring3.execute` (`opcode-list.ts`): pop a byte string, then the end
index, then the start index, and push `subString start end byteString`. -/
def Substring3.execute (stack : TEALStack) : Except ErrCode TEALStack :=
  match stack with
  | a :: b :: c :: rest => do
    let byteString ← Op.assertBytes a
    let finish ← Op.assertBigInt b
    let start ← Op.assertBigInt c
    let sub ← Op.subString start finish byteString
    .ok (.bytes sub :: rest)
  | _ => .error .ASSERT_STACK_LENGTH

/-! ## Application state: accounts, local and global key/value state (C6, C2) -/

/-- `AppLocalState` of an account for one application: the key/value store
(`"key-value"` in the source); keys are byte strings, values are stack
elements. -/
structure AppLocalStateM where
  keyValue : List (List Nat × StackElem)
deriving DecidableEq, Repr

/-- `SSCAttributesM` (`types.ts`): the attributes of a created application —
its two programs, creator and global key/value state (schemas are not
needed by any claim settled here). -/
structure SSCAttributesM where
  approvalProgram : String
  clearStateProgram : String
  creator : String
  globalState : List (List Nat × StackElem)
deriving DecidableEq, Repr

/-- `StoreAccount` (`account.ts`): address, micro-algo balance, minimum
balance, per-app local state, and the apps created by this account.
(Asset holdings and created assets are not touched by any claim settled
here and are omitted from the embedded fragment.) -/
structure StoreAccount where
  address : String
  amount : Int
  minBalance : Int
  appsLocalState : List (Nat × AppLocalStateM)
  createdApps : List (Nat × SSCAttributesM)
deriving DecidableEq, Repr

/-- Association-list lookup, modelling `Map.get` / `Array.find`. -/
def assocLookup {α β : Type} [DecidableEq α] (l : List (α × β)) (k : α) : Option β :=
  (l.find? (fun p => p.1 = k)).map Prod.snd

/-- In-place mutation of the entry stored under key `k` (JavaScript objects
inside a `Map` are mutated through the reference returned by `get`). -/
def assocUpdate {α β : Type} [DecidableEq α] (k : α) (f : β → β) (l : List (α × β)) :
    List (α × β) :=
  l.map (fun p => if p.1 = k then (p.1, f p.2) else p)

/-- `Map.delete` / removal of the entry stored under key `k`. -/
def assocErase {α β : Type} [DecidableEq α] (k : α) (l : List (α × β)) : List (α × β) :=
  l.filter (fun p => ¬ p.1 = k)

/-- `StoreAccount.getLocalState` (`algorand-js/src/runtime/account.ts`): find
the local state for `appId`, then find the key; return the stored value, or
`undefined` when either is missing. -/
def StoreAccount.getLocalState (acc : StoreAccount) (appId : Nat) (key : List Nat) :
    Option StackElem :=
  match assocLookup acc.appsLocalState appId with
  | none => none
  | some ls => assocLookup ls.keyValue key

/-- JavaScript truthiness of `val` in `if (val) { ... }` where
`val : bigint | Uint8Array | undefined`: `undefined` and `0n` are falsy, every
`Uint8Array` (an object) is truthy. -/
def jsTruthy : Option StackElem → Bool
  | none => false
  | some (.uint n) => n != 0
  | some (.bytes _) => true

/-- The fragment of the encoded transaction needed by `AppGlobalGetEx`:
`apid` (current application id) and `apfa` (foreign apps array). -/
structure TxM where
  apid : Nat
  apfa : List Nat
deriving DecidableEq, Repr

/-- `Op.checkIndexBound` (`opcode.ts`): `if (!(idx >= 0 && idx < arr.length))
throw INDEX_OUT_OF_BOUND`. -/
def Op.checkIndexBound {α : Type} (idx : Nat) (arr : List α) : Except ErrCode Unit :=
  if idx < arr.length then .ok () else .error .INDEX_OUT_OF_BOUND

/-- `AppLocalGetEx.execute` (`opcode-list.ts`): pop key, app id and account
index; look the key up in that account's local state for the app; if the
result is truthy push it and then `1`, otherwise push `0` and then `0` (the
`did_exist` flag ends up on top).  Account resolution
(`interpreter.getAccount`) lives in `interpreter.ts`, which is not among the
sources; it is abstracted as the argument `getAccount`. -/
def AppLocalGetEx.execute (getAccount : Nat → Except ErrCode StoreAccount)
    (stack : TEALStack) : Except ErrCode TEALStack :=
  match stack with
  | a :: b :: c :: rest => do
    let key ← Op.assertBytes a
    let appID ← Op.assertBigInt b
    let accountIndex ← Op.assertBigInt c
    let account ← getAccount accountIndex
    let val := account.getLocalState appID key
    match val, jsTruthy val with
    | some v, true => .ok (.uint 1 :: v :: rest)
    | _, _ => .ok (.uint 0 :: .uint 0 :: rest)
  | _ => .error .ASSERT_STACK_LENGTH

/-- `AppGlobalGetEx.execute` (`opcode-list.ts`): pop key and app index (`0`
means the current app, `i + 1` means `ForeignApps[i]`); look the key up in
that app's global state; if the result is truthy push it and then `1`,
otherwise push `0` and then `0`.  Global-state resolution
(`interpreter.getGlobalState`) lives in `interpreter.ts`, which is not among
the sources; it is abstracted as the argument `getGlobalState`. -/
def AppGlobalGetEx.execute (getGlobalState : Nat → List Nat → Option StackElem)
    (tx : TxM) (stack : TEALStack) : Except ErrCode TEALStack :=
  match stack with
  | a :: b :: rest => do
    let key ← Op.assertBytes a
    let appIndex ← Op.assertBigInt b
    let foreignApps := tx.apfa
    let appID ←
      if appIndex = 0 then pure tx.apid
      else do
        let _ ← Op.checkIndexBound (appIndex - 1) foreignApps
        pure (foreignApps.getD (appIndex - 1) 0)
    let val := getGlobalState appID key
    match val, jsTruthy val with
    | some v, true => .ok (.uint 1 :: v :: rest)
    | _, _ => .ok (.uint 0 :: .uint 0 :: rest)
  | _ => .error .ASSERT_STACK_LENGTH

/-! ## Interpreter execution loop and final acceptance check (C3) -/

/-- A program instruction, covering the opcodes embedded above together with
`Int` (pushes a uint64 literal) and `Return`. -/
inductive Instruction where
  | addw
  | mulw
  | itob
  | btoi
  | substring3
  | intpush (n : Nat)
  | ret
deriving DecidableEq, Repr

/-- The mutable interpreter state: `instructionIndex` and the stack. -/
structure InterpreterState where
  instructionIndex : Nat
  stack : TEALStack
deriving DecidableEq, Repr

/-- Dispatch one instruction.  `Return.execute` (`opcode-list.ts`) pops the
last value, empties the stack, pushes the last value back and sets
`interpreter.instructionIndex = interpreter.instructions.length`; the other
instructions only touch the stack. -/
def Instruction.exec (instrsLen : Nat) :
    Instruction → InterpreterState → Except ErrCode InterpreterState
  | .addw, s => (Addw.execute s.stack).map (fun stk => { s with stack := stk })
  | .mulw, s => (Mulw.execute s.stack).map (fun stk => { s with stack := stk })
  | .itob, s => (Itob.execute s.stack).map (fun stk => { s with stack := stk })
  | .btoi, s => (Btoi.execute s.stack).map (fun stk => { s with stack := stk })
  | .substring3, s => (Substring3.execute s.stack).map (fun stk => { s with stack := stk })
  | .intpush n, s => .ok { s with stack := .uint n :: s.stack }
  | .ret, s =>
    match s.stack with
    | [] => .error .ASSERT_STACK_LENGTH
    | last :: _ => .ok { instructionIndex := instrsLen, stack := [last] }

/-- Modelled from the spec (§4.4, the execution loop of `interpreter.ts`,
which is not among the sources): fetch the instruction at the instruction
pointer, increment the pointer, dispatch; terminate when the pointer reaches
the end of the instruction list or a fatal error occurs.  `fuel` bounds the
number of steps; `none` means the fuel ran out before termination. -/
def runLoop (instrs : List Instruction) :
    Nat → InterpreterState → Option (Except ErrCode TEALStack)
  | 0, _ => none
  | fuel + 1, s =>
    if h : s.instructionIndex < instrs.length then
      match (instrs.get ⟨s.instructionIndex, h⟩).exec instrs.length
          { s with instructionIndex := s.instructionIndex + 1 } with
      | .error e => some (.error e)
      | .ok s1 => runLoop instrs fuel s1
    else some (.ok s.stack)

/-- Modelled from the spec (§4.4, `interpreter.ts` is not among the sources):
"Acceptance rule on successful termination: the stack must contain exactly
one value; that value must be a non-zero u64 — otherwise the program is
rejected." -/
def finalVerdict : TEALStack → Except ErrCode Unit
  | [.uint n] => if n = 0 then .error .REJECTED_BY_LOGIC else .ok ()
  | _ => .error .REJECTED_BY_LOGIC

/-- Run a program to termination and apply the final acceptance check. -/
def executeProgram (instrs : List Instruction) (fuel : Nat) (s0 : InterpreterState) :
    Option (Except ErrCode Unit) :=
  match runLoop instrs fuel s0 with
  | none => none
  | some (.error e) => some (.error e)
  | some (.ok stack) => some (finalVerdict stack)

/-! ## The execution engine: world state and the transaction context (C1, C2, C5, C10) -/

/-- `State` (`types.ts`): the world state — accounts by address, app id to
creator address, asset id to creator address. -/
structure State where
  accounts : List (String × StoreAccount)
  globalApps : List (Nat × String)
  assetDefs : List (Nat × String)
deriving DecidableEq, Repr

/-- `SignType` (`types.ts`). -/
inductive SignType where
  | SecretKey
  | LogicSignature
deriving DecidableEq, Repr

/-- The `TransactionType` variants reachable by the claims settled here
(the asset lifecycle variants are not needed by any claim). -/
inductive TxKind where
  | TransferAlgo
  | CallNoOpSSC
  | CloseSSC
  | ClearSSC
  | DeleteSSC
deriving DecidableEq, Repr

/-- A logic signature: the result of `lsig.verify(fromAccount publicKey)` is
abstracted as a boolean (the cryptography is outside the model), together
with the TEAL source of its program. -/
structure LsigM where
  verifiesFromAccount : Bool
  logic : String

/-- `ExecParams` (`types.ts`), restricted to the fields the embedded engine
fragment reads.  `fee` is the fee of the corresponding entry of `gtxs`
(`createTxnContext` builds `gtxs` from the same parameter list, so the two
are aligned by index). -/
structure ExecParams where
  kind : TxKind
  sign : SignType
  fromAccountAddr : String
  toAccountAddr : String
  amountMicroAlgos : Int
  closeRemainderTo : Option String
  appId : Nat
  lsig : Option LsigM
  fee : Int

/-- `ExecutionMode` (`types.ts`). -/
inductive ExecutionMode where
  | STATELESS
  | STATEFUL
deriving DecidableEq, Repr

/-- `runtime.run(program, executionMode)` invokes the TEAL interpreter
(`interpreter.ts`, not among the sources) on the transient context state,
which it mutates in place; it is abstracted as a function from the state to
either a new state or a fatal error together with the (partially mutated)
state at the moment the error was thrown. -/
def RunFn : Type :=
  String → ExecutionMode → State → Except (ErrCode × State) State

/-- `Runtime.assertAccountDefined` applied to an account lookup:
`ACCOUNT_DOES_NOT_EXIST` when the address is not in the accounts map. -/
def State.getAccount (st : State) (addr : String) : Except ErrCode StoreAccount :=
  match assocLookup st.accounts addr with
  | none => .error .ACCOUNT_DOES_NOT_EXIST
  | some acc => .ok acc

/-- Mutate the account object stored under `addr` (JavaScript mutates the
object held by the map in place). -/
def State.updateAccount (st : State) (addr : String) (f : StoreAccount → StoreAccount) :
    State :=
  { st with accounts := assocUpdate addr f st.accounts }

/-- Total micro-algo balance over all accounts of the state. -/
def State.totalAlgo (st : State) : Int :=
  (st.accounts.map (fun p => p.2.amount)).sum

namespace Ctx

/-- `Ctx.assertMinBalance` (`index.ts`): throw `INSUFFICIENT_ACCOUNT_BALANCE`
when `account.amount - amt < account.minBalance`. -/
def assertMinBalance (st : State) (amt : Int) (address : String) : Except ErrCode Unit := do
  let account ← st.getAccount address
  if account.amount - amt < account.minBalance then
    .error .INSUFFICIENT_ACCOUNT_BALANCE
  else
    .ok ()

/-- `Ctx.deductFee` (`index.ts`): check the minimum balance for the fee and
subtract the fee from the sender's balance. -/
def deductFee (st : State) (sender : String) (fee : Int) : Except ErrCode State := do
  let _ ← st.getAccount sender
  let _ ← assertMinBalance st fee sender
  .ok (st.updateAccount sender (fun a => { a with amount := a.amount - fee }))

/-- `Ctx.transferAlgo` (`index.ts`): resolve both accounts, check the sender's
minimum balance, move the amount, and if `closeRemainderTo` is set move the
sender's remaining balance there and zero the sender. -/
def transferAlgo (st : State) (t : ExecParams) : Except ErrCode State := do
  let fromAccount ← st.getAccount t.fromAccountAddr
  let _ ← st.getAccount t.toAccountAddr
  let _ ← assertMinBalance st t.amountMicroAlgos fromAccount.address
  let st1 := st.updateAccount t.fromAccountAddr
    (fun a => { a with amount := a.amount - t.amountMicroAlgos })
  let st2 := st1.updateAccount t.toAccountAddr
    (fun a => { a with amount := a.amount + t.amountMicroAlgos })
  match t.closeRemainderTo with
  | none => .ok st2
  | some closeAddr => do
    let _ ← st2.getAccount closeAddr
    let fromNow ← st2.getAccount t.fromAccountAddr
    let st3 := st2.updateAccount closeAddr
      (fun a => { a with amount := a.amount + fromNow.amount })
    let st4 := st3.updateAccount t.fromAccountAddr (fun a => { a with amount := 0 })
    .ok st4

/-- `Ctx.getApp` (`index.ts`): look up the app's creator in `globalApps`, the
creator's account, and the app attributes in the creator's `createdApps`. -/
def getApp (st : State) (appId : Nat) : Except ErrCode SSCAttributesM :=
  match assocLookup st.globalApps appId with
  | none => .error .APP_NOT_FOUND
  | some accAddress =>
    match assocLookup st.accounts accAddress with
    | none => .error .ACCOUNT_DOES_NOT_EXIST
    | some account =>
      match assocLookup account.createdApps appId with
      | none => .error .APP_NOT_FOUND
      | some app => .ok app

/-- `Ctx.closeApp` (`index.ts`): resolve the sender and the app, then remove
the app from the sender's local state (`fromAccount.closeApp(appId)` in
`account.ts` removes the local-state slot; spec §3: "close/clear removes
it"). -/
def closeApp (st : State) (sender : String) (appId : Nat) : Except ErrCode State := do
  let _ ← st.getAccount sender
  let _ ← getApp st appId
  .ok (st.updateAccount sender
    (fun a => { a with appsLocalState := assocErase appId a.appsLocalState }))

/-- `Ctx.deleteApp` (`index.ts`): remove the app from its creator's
`createdApps` and from `globalApps`. -/
def deleteApp (st : State) (appId : Nat) : Except ErrCode State :=
  match assocLookup st.globalApps appId with
  | none => .error .APP_NOT_FOUND
  | some accountAddr =>
    match assocLookup st.accounts accountAddr with
    | none => .error .ACCOUNT_DOES_NOT_EXIST
    | some _ =>
      let st1 := st.updateAccount accountAddr
        (fun a => { a with createdApps := assocErase appId a.createdApps })
      .ok { st1 with globalApps := assocErase appId st1.globalApps }

end Ctx

/-- `Runtime.assertAmbiguousTxnParams`: a transaction signed by secret key
that also carries a logic signature is rejected with
`INVALID_TRANSACTION_PARAMS`. -/
def Runtime.assertAmbiguousTxnParams (t : ExecParams) : Except ErrCode Unit :=
  if t.sign = .SecretKey ∧ t.lsig.isSome then .error .INVALID_TRANSACTION_PARAMS
  else .ok ()

/-- `Runtime.validateLsigAndRun`: missing logic signature throws
`LOGIC_SIGNATURE_NOT_FOUND`; a signature that does not verify against the
sender throws `LOGIC_SIGNATURE_VALIDATION_FAILED`; otherwise the embedded
program runs in stateless mode. -/
def Runtime.validateLsigAndRun (runProg : RunFn) (t : ExecParams) (st : State) :
    Except (ErrCode × State) State :=
  match t.lsig with
  | none => .error (.LOGIC_SIGNATURE_NOT_FOUND, st)
  | some lsig =>
    if lsig.verifiesFromAccount then runProg lsig.logic .STATELESS st
    else .error (.LOGIC_SIGNATURE_VALIDATION_FAILED, st)

namespace Ctx

/-- The body of one iteration of the `forEach` in `Ctx.processTransactions`
(`index.ts`) after the fee deduction: ambiguity check, logic-signature
validation, then the per-kind payload dispatch.  The returned boolean is
whether this transaction set `clearErrorBool` (a `ClearSSC` whose clear
program was rejected by logic, error number 1007). -/
def processTxnPayload (runProg : RunFn) (st : State) (t : ExecParams) :
    Except ErrCode (State × Bool) := do
  let _ ← Runtime.assertAmbiguousTxnParams t
  let st ←
    if t.sign = .LogicSignature then
      match Runtime.validateLsigAndRun runProg t st with
      | .error (e, _) => .error e
      | .ok s => .ok s
    else .ok st
  match t.kind with
  | .TransferAlgo => do
    let st1 ← transferAlgo st t
    .ok (st1, false)
  | .CallNoOpSSC => do
    let app ← getApp st t.appId
    match runProg app.approvalProgram .STATEFUL st with
    | .error (e, _) => .error e
    | .ok st1 => .ok (st1, false)
  | .CloseSSC => do
    let app ← getApp st t.appId
    match runProg app.approvalProgram .STATEFUL st with
    | .error (e, _) => .error e
    | .ok st1 => do
      let st2 ← closeApp st1 t.fromAccountAddr t.appId
      .ok (st2, false)
  | .ClearSSC => do
    let app ← getApp st t.appId
    match runProg app.clearStateProgram .STATEFUL st with
    | .error (e, stp) =>
      if e.number = 1007 then do
        let st2 ← closeApp stp t.fromAccountAddr t.appId
        .ok (st2, true)
      else .error e
    | .ok st1 => do
      let st2 ← closeApp st1 t.fromAccountAddr t.appId
      .ok (st2, false)
  | .DeleteSSC => do
    let app ← getApp st t.appId
    match runProg app.approvalProgram .STATEFUL st with
    | .error (e, _) => .error e
    | .ok st1 => do
      let st2 ← deleteApp st1 t.appId
      .ok (st2, false)

/-- One full iteration of the `forEach` in `Ctx.processTransactions`: deduct
the transaction's fee from its sender, then run the payload. -/
def processTxn (runProg : RunFn) (st : State) (t : ExecParams) :
    Except ErrCode (State × Bool) := do
  let st1 ← deductFee st t.fromAccountAddr t.fee
  processTxnPayload runProg st1 t

/-- The `forEach` of `Ctx.processTransactions`, threading the context state
and `clearErrorBool` through the group. -/
def processTransactionsAux (runProg : RunFn) (st : State) (clearErrorBool : Bool) :
    List ExecParams → Except ErrCode (State × Bool)
  | [] => .ok (st, clearErrorBool)
  | t :: rest => do
    let r ← processTxn runProg st t
    processTransactionsAux runProg r.1 (clearErrorBool || r.2) rest

/-- `Ctx.processTransactions` (`index.ts`): process the group in declared
order; the returned boolean is the final `clearErrorBool`. -/
def processTransactions (runProg : RunFn) (st : State) (txnParams : List ExecParams) :
    Except ErrCode (State × Bool) :=
  processTransactionsAux runProg st false txnParams

end Ctx

/-- Modelled from the spec (§4.6 step 2, for comparison with the code in C5):
"Fee deduction is applied to each sender for each transaction in declared
order before any payload executes" — first every fee is deducted, then every
payload runs. -/
def specFeesFirstProcess (runProg : RunFn) (st : State) (txnParams : List ExecParams) :
    Except ErrCode (State × Bool) := do
  let stFees ← txnParams.foldlM (fun s t => Ctx.deductFee s t.fromAccountAddr t.fee) st
  let r ← txnParams.foldlM
    (fun (p : State × Bool) t => do
      let q ← Ctx.processTxnPayload runProg p.1 t
      pure (q.1, p.2 || q.2))
    (stFees, false)
  pure r

/-! ## The old `Runtime` engine embedded at the end of `opcode-list.ts` (C1) -/

namespace Runtime

/-- `Runtime.getProgram`: the `(approval, clear)` programs stored in
`programMap`, or `APP_NOT_FOUND`. -/
def getProgram (programMap : List (Nat × (String × String))) (appId : Nat) :
    Except ErrCode (String × String) :=
  match assocLookup programMap appId with
  | none => .error .APP_NOT_FOUND
  | some res => .ok res

/-- The old `Runtime.transferAlgo` (`opcode-list.ts`): resolve both accounts,
then move the amount — no minimum-balance check and no close-remainder
handling. -/
def transferAlgo (st : State) (t : ExecParams) : Except ErrCode State := do
  let _ ← st.getAccount t.fromAccountAddr
  let _ ← st.getAccount t.toAccountAddr
  let st1 := st.updateAccount t.fromAccountAddr
    (fun a => { a with amount := a.amount - t.amountMicroAlgos })
  .ok (st1.updateAccount t.toAccountAddr
    (fun a => { a with amount := a.amount + t.amountMicroAlgos }))

/-- The old `Runtime.deleteApp` (`opcode-list.ts`): remove the app from its
creator's `createdApps` and from `globalApps` (the `programMap` bookkeeping
is not part of the world state). -/
def deleteApp (st : State) (appId : Nat) : Except ErrCode State :=
  match assocLookup st.globalApps appId with
  | none => .error .APP_NOT_FOUND
  | some accountAddr =>
    match assocLookup st.accounts accountAddr with
    | none => .error .ACCOUNT_DOES_NOT_EXIST
    | some _ =>
      let st1 := st.updateAccount accountAddr
        (fun a => { a with createdApps := assocErase appId a.createdApps })
      .ok { st1 with globalApps := assocErase appId st1.globalApps }

/-- The first loop of `Runtime.executeTx` (`opcode-list.ts`): for each
transaction check ambiguous signing, validate and run an attached logic
signature, and run the approval (or clear) program of an application call.
Everything here operates on `ctx.state`, the deep copy of the store; a
thrown error aborts `executeTx` with the store untouched, so the
partially-mutated copy carried by the error is discarded. -/
def runPhase (runProg : RunFn) (programMap : List (Nat × (String × String))) :
    State → List ExecParams → Except ErrCode State
  | st, [] => .ok st
  | st, t :: rest => do
    let _ ← Runtime.assertAmbiguousTxnParams t
    let st1 ←
      if t.sign = .LogicSignature then
        match Runtime.validateLsigAndRun runProg t st with
        | .error (e, _) => .error e
        | .ok s => .ok s
      else .ok st
    let st2 ←
      match t.kind with
      | .TransferAlgo => .ok st1
      | .CallNoOpSSC => do
        let progs ← getProgram programMap t.appId
        match runProg progs.1 .STATEFUL st1 with
        | .error (e, _) => .error e
        | .ok s => .ok s
      | .CloseSSC => do
        let progs ← getProgram programMap t.appId
        match runProg progs.1 .STATEFUL st1 with
        | .error (e, _) => .error e
        | .ok s => .ok s
      | .DeleteSSC => do
        let progs ← getProgram programMap t.appId
        match runProg progs.1 .STATEFUL st1 with
        | .error (e, _) => .error e
        | .ok s => .ok s
      | .ClearSSC => do
        let progs ← getProgram programMap t.appId
        match runProg progs.2 .STATEFUL st1 with
        | .error (e, _) => .error e
        | .ok s => .ok s
    runPhase runProg programMap st2 rest

/-- The loop of `Runtime.updateFinalState` (`opcode-list.ts`): it runs after
`this.store = this.ctx.state`, so every mutation here — and the state at the
moment an error is thrown — lands in the canonical store. -/
def updateFinalStateAux : State → List ExecParams → Option ErrCode × State
  | st, [] => (none, st)
  | st, t :: rest =>
    match t.kind with
    | .TransferAlgo =>
      match transferAlgo st t with
      | .error e => (some e, st)
      | .ok st1 => updateFinalStateAux st1 rest
    | .DeleteSSC =>
      match deleteApp st t.appId with
      | .error e => (some e, st)
      | .ok st1 => updateFinalStateAux st1 rest
    | _ => updateFinalStateAux st rest

/-- `Runtime.updateFinalState` (`opcode-list.ts`): substitute the transient
context state for the store, then apply the `TransferAlgo` and `DeleteSSC`
payloads directly to the store. -/
def updateFinalState (ctxState : State) (txnParams : List ExecParams) :
    Option ErrCode × State :=
  updateFinalStateAux ctxState txnParams

/-- `Runtime.executeTx` (`opcode-list.ts`): reject groups larger than 16
(`createTxnContext`), make `ctx.state` a deep copy of the store, run all
TEAL programs against the copy, and finally call `updateFinalState`.  The
result is the thrown error (if any) together with the canonical store after
the call. -/
def executeTx (runProg : RunFn) (programMap : List (Nat × (String × String)))
    (store : State) (txnParams : List ExecParams) : Option ErrCode × State :=
  if txnParams.length > 16 then (some .MAX_GROUP_SIZE_EXCEEDED, store)
  else
    match runPhase runProg programMap store txnParams with
    | .error e => (some e, store)
    | .ok ctxState => updateFinalState ctxState txnParams

end Runtime

/-! ## Concrete data for counterexamples and witnesses -/

/-- A run function that never fails and leaves the state unchanged (used for
groups that do not run any TEAL program). -/
def noRunFn : RunFn := fun _ _ st => .ok st

/-- An account with the given address and balance, no minimum balance, no
local state and no created apps. -/
def mkPlainAccount (addr : String) (amt : Int) : StoreAccount :=
  { address := addr, amount := amt, minBalance := 0,
    appsLocalState := [], createdApps := [] }

/-- A plain algo transfer by secret key. -/
def mkPay (fromAddr toAddr : String) (amt fee : Int) : ExecParams :=
  { kind := .TransferAlgo, sign := .SecretKey, fromAccountAddr := fromAddr,
    toAccountAddr := toAddr, amountMicroAlgos := amt, closeRemainderTo := none,
    appId := 0, lsig := none, fee := fee }

/-- World state for the C1 counterexample: alice owns 1000, bob owns 500,
chris does not exist. -/
def c1Store : State :=
  { accounts := [("alice", mkPlainAccount "alice" 1000), ("bob", mkPlainAccount "bob" 500)],
    globalApps := [], assetDefs := [] }

/-- World state for the C5 counterexample: alice owns 1000, bob owns 0. -/
def c5Store : State :=
  { accounts := [("alice", mkPlainAccount "alice" 1000), ("bob", mkPlainAccount "bob" 0)],
    globalApps := [], assetDefs := [] }

/-- An account holding local state for app 1 in which the key `[107]` is
present with the stored value `Uint64(0)`. -/
def c6Account : StoreAccount :=
  { address := "john", amount := 0, minBalance := 0,
    appsLocalState := [(1, { keyValue := [([107], .uint 0)] })],
    createdApps := [] }

/-- An account holding local state for app 1 in which the key `[107]` is
present with the stored value `Uint64(7)`. -/
def c6AccountNz : StoreAccount :=
  { address := "john", amount := 0, minBalance := 0,
    appsLocalState := [(1, { keyValue := [([107], .uint 7)] })],
    createdApps := [] }

/-! ## Helper lemmas for wide arithmetic -/

theorem land_maxUint64_eq_mod (n : Nat) : n &&& MAX_UINT64 = n % 2 ^ 64 := by
  have h := Nat.and_pow_two_sub_one_eq_mod n 64
  simpa [MAX_UINT64] using h

theorem mul_div_two_pow_64_le (a b : Nat)
    (ha : a ≤ MAX_UINT64) (hb : b ≤ MAX_UINT64) : a * b / 2 ^ 64 ≤ MAX_UINT64 := by
  simp only [MAX_UINT64] at *
  have h1 : a * b ≤ (2 ^ 64 - 1) * (2 ^ 64 - 1) := Nat.mul_le_mul ha hb
  have h2 : a * b < 2 ^ 64 * 2 ^ 64 := lt_of_le_of_lt h1 (by norm_num)
  have h3 := Nat.div_lt_of_lt_mul h2
  omega

/-! ## Claim theorems: wide arithmetic -/

/-- C4: for u64 operands `a` (top) and `b`, `addw` pushes carry `1` and
`(a + b) mod 2⁶⁴` when `a + b` exceeds `MAX_UINT64`, and pushes carry `0`
and `a + b` otherwise (the sum ends up on top of the stack, the carry
below it). -/
theorem addw_carry_and_sum (a b : Nat) (rest : TEALStack)
    (ha : a ≤ MAX_UINT64) (hb : b ≤ MAX_UINT64) :
    (a + b > MAX_UINT64 →
      Addw.execute (.uint a :: .uint b :: rest) =
        .ok (.uint ((a + b) % 2 ^ 64) :: .uint 1 :: rest)) ∧
    (a + b ≤ MAX_UINT64 →
      Addw.execute (.uint a :: .uint b :: rest) =
        .ok (.uint (a + b) :: .uint 0 :: rest)) := by
  have e : Addw.execute (.uint a :: .uint b :: rest) =
      if MAX_UINT64 < a + b then
        .ok (.uint (a + b - MAX_UINT64 - 1) :: .uint 1 :: rest)
      else .ok (.uint (a + b) :: .uint 0 :: rest) := rfl
  constructor <;> intro h
  · rw [e, if_pos h]
    have hm : (a + b) % 2 ^ 64 = a + b - MAX_UINT64 - 1 := by
      simp only [MAX_UINT64] at *
      omega
    rw [hm]
  · rw [e, if_neg (Nat.not_lt.mpr h)]

/-- Witness for C4 at the overflow input of the repository's own test:
`MAX_UINT64 + 3` gives sum `2` and carry `1`. -/
theorem addw_carry_and_sum_witness :
    Addw.execute [.uint MAX_UINT64, .uint 3] = .ok [.uint 2, .uint 1] := by
  have h := (addw_carry_and_sum MAX_UINT64 3 [] (le_refl _)
    (by norm_num [MAX_UINT64])).1 (by norm_num [MAX_UINT64])
  have hm : (MAX_UINT64 + 3) % 2 ^ 64 = 2 := by norm_num [MAX_UINT64]
  rw [hm] at h
  exact h

/-- C9: for u64 operands, `mulw` never fails: the low word
`(a * b) & MAX_UINT64` and the high word `(a * b) >> 64` of the 128-bit
product both fit in a u64, so the two `UINT64_OVERFLOW` branches in
`Mulw.execute` are unreachable, and the opcode pushes the high word and
then the low word of the product. -/
theorem mulw_overflow_unreachable (a b : Nat) (rest : TEALStack)
    (ha : a ≤ MAX_UINT64) (hb : b ≤ MAX_UINT64) :
    ((a * b) &&& MAX_UINT64) ≤ MAX_UINT64 ∧ ((a * b) >>> 64) ≤ MAX_UINT64 ∧
    Mulw.execute (.uint a :: .uint b :: rest) =
      .ok (.uint (a * b % 2 ^ 64) :: .uint (a * b / 2 ^ 64) :: rest) := by
  have hmod := land_maxUint64_eq_mod (a * b)
  have hshift : (a * b) >>> 64 = a * b / 2 ^ 64 := Nat.shiftRight_eq_div_pow (a * b) 64
  have hlow : ((a * b) &&& MAX_UINT64) ≤ MAX_UINT64 := Nat.and_le_right
  have hhigh : ((a * b) >>> 64) ≤ MAX_UINT64 := by
    rw [hshift]
    exact mul_div_two_pow_64_le a b ha hb
  have hc1 : Op.checkOverflow ((a * b) &&& MAX_UINT64) = .ok () := by
    simp [Op.checkOverflow, Nat.not_lt.mpr hlow]
  have hc2 : Op.checkOverflow ((a * b) >>> 64) = .ok () := by
    simp [Op.checkOverflow, Nat.not_lt.mpr hhigh]
  refine ⟨hlow, hhigh, ?_⟩
  have e1 : Mulw.execute (.uint a :: .uint b :: rest) =
      (Op.checkOverflow ((a * b) &&& MAX_UINT64)).bind (fun _ =>
        (Op.checkOverflow ((a * b) >>> 64)).bind (fun _ =>
          Except.ok (.uint ((a * b) &&& MAX_UINT64) :: .uint ((a * b) >>> 64) :: rest))) := rfl
  rw [e1, hc1]
  simp only [Except.bind]
  rw [hc2]
  simp only [Except.bind]
  rw [hmod, hshift]

/-- Witness for C9 at the repository's own test input. -/
theorem mulw_overflow_unreachable_witness :
    Mulw.execute [.uint 4581298449, .uint 9162596898] =
      .ok [.uint (4581298449 * 9162596898 % 2 ^ 64),
           .uint (4581298449 * 9162596898 / 2 ^ 64)] :=
  (mulw_overflow_unreachable 4581298449 9162596898 []
    (by norm_num [MAX_UINT64]) (by norm_num [MAX_UINT64])).2.2

/-! ## Claim theorems: substring -/

/-- C7: `subString s a b` fails with `SUBSTRING_END_BEFORE_START` when
`a > b`, fails with `SUBSTRING_RANGE_BEYOND` when `a ≤ b` and
`b > s.length`, and otherwise returns the bytes of `s` from index `a` up to
but not including `b`; `Substring3.execute` pushes that byte string. -/
theorem substring_range_semantics (s : List Nat) (a b : Nat) :
    (a > b → Op.subString a b s = .error .SUBSTRING_END_BEFORE_START) ∧
    (a ≤ b → b > s.length → Op.subString a b s = .error .SUBSTRING_RANGE_BEYOND) ∧
    (a ≤ b → b ≤ s.length →
      ∃ r, Op.subString a b s = .ok r ∧
        Substring3.execute [.bytes s, .uint b, .uint a] = .ok [.bytes r] ∧
        r.length = b - a ∧ ∀ i, i < b - a → r[i]? = s[a + i]?) := by
  refine ⟨fun h => ?_, fun hab h => ?_, fun hab hb => ?_⟩
  · simp [Op.subString, h]
  · have : ¬ b < a := Nat.not_lt.mpr hab
    simp [Op.subString, this]
    omega
  · have h1 : ¬ b < a := Nat.not_lt.mpr hab
    have h2 : ¬ (a > s.length ∨ b > s.length) := by
      push_neg
      exact ⟨le_trans hab hb, hb⟩
    refine ⟨(s.drop a).take (b - a), ?_, ?_, ?_, ?_⟩
    · simp only [Op.subString, if_neg (Nat.not_lt.mpr hab)]
      rw [if_neg h2]
    · simp [Substring3.execute, Op.assertBytes, Op.assertBigInt, Bind.bind, Except.bind,
        Op.subString, if_neg (Nat.not_lt.mpr hab), if_neg h2]
    · rw [List.length_take, List.length_drop]
      omega
    · intro i hi
      rw [List.getElem?_take_of_lt hi, List.getElem?_drop]

/-- Witness for C7: `substring3` on `[10, 20, 30]` with range `[1, 3)`. -/
theorem substring_range_semantics_witness :
    ∃ r, Op.subString 1 3 [10, 20, 30] = .ok r ∧
      Substring3.execute [.bytes [10, 20, 30], .uint 3, .uint 1] = .ok [.bytes r] ∧
      r.length = 3 - 1 ∧ ∀ i, i < 3 - 1 → r[i]? = [10, 20, 30][1 + i]? :=
  (substring_range_semantics [10, 20, 30] 1 3).2.2 (by norm_num) (by norm_num)

/-! ## Claim theorems: itob / btoi round trip -/

/-- C8: `itob` and `btoi` are mutually inverse: `btoi (itob x) = x` for every
u64 `x`, and `itob (btoi s) = s` for every byte string `s` of length
exactly 8. -/
theorem itob_btoi_mutually_inverse (x : Nat) (s : List Nat) (rest : TEALStack)
    (hx : x ≤ MAX_UINT64) (hlen : s.length = 8) (hbytes : ∀ b ∈ s, b < 256) :
    ((Itob.execute (.uint x :: rest)).bind Btoi.execute = .ok (.uint x :: rest)) ∧
    ((Btoi.execute (.bytes s :: rest)).bind Itob.execute = .ok (.bytes s :: rest)) := by
  constructor
  · have hx64 : x < 2 ^ 64 := by
      simp only [MAX_UINT64] at hx
      omega
    simp only [Itob.execute, Btoi.execute, Op.assertBigInt, Op.assertBytes,
      Bind.bind, Except.bind, encodeUint64, decodeUint64, List.length, List.foldl]
    norm_num
    omega
  · rcases s with _ | ⟨b0, _ | ⟨b1, _ | ⟨b2, _ | ⟨b3, _ | ⟨b4, _ | ⟨b5, _ | ⟨b6, _ | ⟨b7, _ | ⟨b8, t⟩⟩⟩⟩⟩⟩⟩⟩⟩ <;>
      simp only [List.length] at hlen <;> try omega
    have h0 : b0 < 256 := hbytes _ (by simp)
    have h1 : b1 < 256 := hbytes _ (by simp)
    have h2 : b2 < 256 := hbytes _ (by simp)
    have h3 : b3 < 256 := hbytes _ (by simp)
    have h4 : b4 < 256 := hbytes _ (by simp)
    have h5 : b5 < 256 := hbytes _ (by simp)
    have h6 : b6 < 256 := hbytes _ (by simp)
    have h7 : b7 < 256 := hbytes _ (by simp)
    simp only [Btoi.execute, Itob.execute, Op.assertBytes, Op.assertBigInt,
      Bind.bind, Except.bind, decodeUint64, encodeUint64, List.length, List.foldl]
    norm_num
    omega

/-- Witness for C8 at `x = 5` and `s = [1, 2, 3, 4, 5, 6, 7, 8]`. -/
theorem itob_btoi_mutually_inverse_witness :
    ((Itob.execute [.uint 5]).bind Btoi.execute = .ok [.uint 5]) ∧
    ((Btoi.execute [.bytes [1, 2, 3, 4, 5, 6, 7, 8]]).bind Itob.execute =
      .ok [.bytes [1, 2, 3, 4, 5, 6, 7, 8]]) :=
  itob_btoi_mutually_inverse 5 [1, 2, 3, 4, 5, 6, 7, 8] []
    (by norm_num [MAX_UINT64]) (by norm_num) (by decide)

/-- The algo transfer used by the C10 witness: alice sends 100 to bob and
closes the remainder to chris. -/
def c10Pay : ExecParams :=
  { kind := .TransferAlgo, sign := .SecretKey, fromAccountAddr := "alice",
    toAccountAddr := "bob", amountMicroAlgos := 100,
    closeRemainderTo := some "chris", appId := 0, lsig := none, fee := 0 }

/-- World state for the C10 witness: alice 1000, bob 500, chris 7. -/
def c10Store : State :=
  { accounts := [("alice", mkPlainAccount "alice" 1000),
                 ("bob", mkPlainAccount "bob" 500),
                 ("chris", mkPlainAccount "chris" 7)],
    globalApps := [], assetDefs := [] }

/-- The application used by the C2 witness. -/
def c2App : SSCAttributesM :=
  { approvalProgram := "approval", clearStateProgram := "clear",
    creator := "john", globalState := [] }

/-- World state for the C2 witness: john created app 1 and is opted in with a
non-empty local state. -/
def c2Store : State :=
  { accounts := [("john",
      { address := "john", amount := 1000, minBalance := 0,
        appsLocalState := [(1, { keyValue := [([108], .uint 3)] })],
        createdApps := [(1, c2App)] })],
    globalApps := [(1, "john")], assetDefs := [] }

/-- `c2Store` after deducting the 10 micro-algo fee from john. -/
def c2St1 : State :=
  { accounts := [("john",
      { address := "john", amount := 990, minBalance := 0,
        appsLocalState := [(1, { keyValue := [([108], .uint 3)] })],
        createdApps := [(1, c2App)] })],
    globalApps := [(1, "john")], assetDefs := [] }

/-- The `ClearSSC` transaction of the C2 witness. -/
def c2Txn : ExecParams :=
  { kind := .ClearSSC, sign := .SecretKey, fromAccountAddr := "john",
    toAccountAddr := "john", amountMicroAlgos := 0, closeRemainderTo := none,
    appId := 1, lsig := none, fee := 10 }

/-- A run function whose programs always fail with `REJECTED_BY_LOGIC`
(error number 1007), leaving the state as it was. -/
def c2RunClear : RunFn := fun _ _ s => .error (.REJECTED_BY_LOGIC, s)

/-! ## Association-list lemmas -/

theorem assocLookup_update_self {α β : Type} [DecidableEq α] (k : α) (f : β → β)
    (l : List (α × β)) : assocLookup (assocUpdate k f l) k = (assocLookup l k).map f := by
  induction l with
  | nil => rfl
  | cons p t ih =>
    by_cases h : p.1 = k
    · simp [assocLookup, assocUpdate, List.find?, h]
    · simp only [assocLookup, assocUpdate, List.map_cons, if_neg h] at *
      rw [List.find?_cons_of_neg _ (by simp [h]), List.find?_cons_of_neg _ (by simp [h])]
      exact ih

theorem assocLookup_update_other {α β : Type} [DecidableEq α] (k k' : α) (f : β → β)
    (l : List (α × β)) (h : k' ≠ k) :
    assocLookup (assocUpdate k f l) k' = assocLookup l k' := by
  induction l with
  | nil => rfl
  | cons p t ih =>
    by_cases hp : p.1 = k
    · subst hp
      simp only [assocLookup, assocUpdate, List.map_cons, if_pos rfl] at *
      rw [List.find?_cons_of_neg _ (by simp [Ne.symm h]),
        List.find?_cons_of_neg _ (by simp [Ne.symm h])]
      exact ih
    · by_cases hq : p.1 = k'
      · simp only [assocLookup, assocUpdate, List.map_cons, if_neg hp]
        rw [List.find?_cons_of_pos _ (by simp [hq]), List.find?_cons_of_pos _ (by simp [hq])]
      · simp only [assocLookup, assocUpdate, List.map_cons, if_neg hp] at *
        rw [List.find?_cons_of_neg _ (by simp [hq]), List.find?_cons_of_neg _ (by simp [hq])]
        exact ih

theorem assocLookup_erase_self {α β : Type} [DecidableEq α] (k : α) (l : List (α × β)) :
    assocLookup (assocErase k l) k = none := by
  induction l with
  | nil => rfl
  | cons p t ih =>
    by_cases h : p.1 = k
    · simpa [assocErase, h] using ih
    · simp only [assocErase, List.filter] at *
      rw [decide_eq_true (by simpa using h)]
      simp only [assocLookup] at *
      rw [List.find?_cons_of_neg _ (by simp [h])]
      exact ih

theorem assocUpdate_keys {α β : Type} [DecidableEq α] (k : α) (f : β → β) (l : List (α × β)) :
    (assocUpdate k f l).map Prod.fst = l.map Prod.fst := by
  induction l with
  | nil => rfl
  | cons p t ih =>
    by_cases h : p.1 = k <;> simp [assocUpdate, h] at * <;> exact ih

theorem assocUpdate_eq_of_not_mem {α β : Type} [DecidableEq α] (k : α) (f : β → β)
    (l : List (α × β)) (h : k ∉ l.map Prod.fst) : assocUpdate k f l = l := by
  induction l with
  | nil => rfl
  | cons p t ih =>
    simp only [List.map_cons, List.mem_cons, not_or] at h
    have hne : ¬ p.1 = k := fun hh => h.1 hh.symm
    simp only [assocUpdate, List.map_cons, if_neg hne]
    have ht : List.map (fun p => if p.1 = k then (p.1, f p.2) else p) t = t := ih h.2
    rw [ht]

theorem sum_map_update {α β : Type} [DecidableEq α] (g : β → Int) (k : α) (f : β → β)
    (l : List (α × β)) (v : β) (hnd : (l.map Prod.fst).Nodup)
    (hv : assocLookup l k = some v) :
    ((assocUpdate k f l).map (fun p => g p.2)).sum =
      (l.map (fun p => g p.2)).sum + g (f v) - g v := by
  induction l with
  | nil => simp [assocLookup] at hv
  | cons p t ih =>
    simp only [List.map_cons, List.nodup_cons] at hnd
    obtain ⟨hnotin, hndt⟩ := hnd
    by_cases h : p.1 = k
    · have hveq : p.2 = v := by
        simp only [assocLookup] at hv
        rw [List.find?_cons_of_pos _ (by simp [h])] at hv
        simpa using hv
      subst hveq
      have hupd : assocUpdate k f t = t := by
        apply assocUpdate_eq_of_not_mem
        rw [← h]
        exact hnotin
      simp only [assocUpdate, List.map_cons, if_pos h] at *
      rw [hupd]
      simp only [List.map_cons, List.sum_cons]
      ring
    · have hvt : assocLookup t k = some v := by
        simp only [assocLookup] at hv ⊢
        rwa [List.find?_cons_of_neg _ (by simp [h])] at hv
      simp only [assocUpdate, List.map_cons, if_neg h, List.sum_cons] at *
      rw [ih hndt hvt]
      ring

/-! ## World-state lemmas -/

theorem getAccount_ok_iff (st : State) (addr : String) (acc : StoreAccount) :
    st.getAccount addr = .ok acc ↔ assocLookup st.accounts addr = some acc := by
  unfold State.getAccount
  cases assocLookup st.accounts addr <;> simp

theorem updateAccount_nodup (st : State) (addr : String) (f : StoreAccount → StoreAccount)
    (hnd : (st.accounts.map Prod.fst).Nodup) :
    (((st.updateAccount addr f).accounts).map Prod.fst).Nodup := by
  unfold State.updateAccount
  rw [assocUpdate_keys]
  exact hnd

theorem totalAlgo_update (st : State) (addr : String) (f : StoreAccount → StoreAccount)
    (v : StoreAccount) (hnd : (st.accounts.map Prod.fst).Nodup)
    (hv : assocLookup st.accounts addr = some v) :
    (st.updateAccount addr f).totalAlgo = st.totalAlgo + (f v).amount - v.amount := by
  have h := sum_map_update (fun a => a.amount) addr f st.accounts v hnd hv
  simp only [State.totalAlgo, State.updateAccount]
  exact h

theorem totalAlgo_update_delta (st : State) (addr : String) (f : StoreAccount → StoreAccount)
    (d : Int) (hf : ∀ a, (f a).amount = a.amount + d)
    (hnd : (st.accounts.map Prod.fst).Nodup)
    (v : StoreAccount) (hv : assocLookup st.accounts addr = some v) :
    (st.updateAccount addr f).totalAlgo = st.totalAlgo + d := by
  rw [totalAlgo_update st addr f v hnd hv, hf v]
  ring

theorem updateAccount_accounts (st : State) (addr : String)
    (f : StoreAccount → StoreAccount) :
    (st.updateAccount addr f).accounts = assocUpdate addr f st.accounts := rfl

theorem except_bind_ok_iff {e a b : Type} (x : Except e a) (f : a → Except e b) (r : b) :
    (x >>= f) = .ok r ↔ ∃ v, x = .ok v ∧ f v = .ok r := by
  cases x <;> simp [Bind.bind, Except.bind]

/-! ## Claim C1: atomicity of the old `Runtime.executeTx` -/

/-- C1 (evaluation at the failing input): a group of two algo transfers in
which the second receiver does not exist.  `executeTx` throws
`ACCOUNT_DOES_NOT_EXIST`, yet the canonical store after the call is not the
pre-state: the first transfer's mutation (alice 1000 → 900, bob 500 → 600)
remains, because `updateFinalState` applies the payloads directly to the
store after substituting the transient copy for it. -/
theorem executeTx_partial_mutation_on_failure :
    (Runtime.executeTx noRunFn [] c1Store
        [mkPay "alice" "bob" 100 0, mkPay "alice" "chris" 50 0]).1 =
      some .ACCOUNT_DOES_NOT_EXIST ∧
    (Runtime.executeTx noRunFn [] c1Store
        [mkPay "alice" "bob" 100 0, mkPay "alice" "chris" 50 0]).2 ≠ c1Store ∧
    ((assocLookup (Runtime.executeTx noRunFn [] c1Store
        [mkPay "alice" "bob" 100 0, mkPay "alice" "chris" 50 0]).2.accounts
        "alice").map (fun a => a.amount) = some 900) ∧
    ((assocLookup c1Store.accounts "alice").map (fun a => a.amount) = some 1000) := by
  decide

/-! ## Claim C5: fee deduction order -/

/-- C5 (counterexample): in this group the code's interleaved order accepts —
bob pays his 400 fee out of the 500 he received from the first payload —
whereas deducting every fee before any payload (as the claim states) rejects
the group with `INSUFFICIENT_ACCOUNT_BALANCE`, since bob starts with 0. -/
theorem fee_order_counterexample :
    Ctx.processTransactions noRunFn c5Store
        [mkPay "alice" "bob" 500 100, mkPay "bob" "bob" 0 400] =
      .ok ({ accounts := [("alice", mkPlainAccount "alice" 400),
                          ("bob", mkPlainAccount "bob" 100)],
             globalApps := [], assetDefs := [] }, false) ∧
    specFeesFirstProcess noRunFn c5Store
        [mkPay "alice" "bob" 500 100, mkPay "bob" "bob" 0 400] =
      .error .INSUFFICIENT_ACCOUNT_BALANCE := by
  exact ⟨rfl, rfl⟩

/-! ## Claim C6: the `did_exist` flag of the `_ex` state reads -/

/-- C6 (counterexample): an account whose local state for app 1 contains the
key `[107]` with stored value `Uint64(0)`.  The key exists, yet
`app_local_get_ex` pushes `did_exist = 0` (top) and value `Uint64(0)`,
because the source tests the looked-up value with JavaScript truthiness
(`if (val)`) and `0n` is falsy. -/
theorem app_get_ex_flag_counterexample :
    c6Account.getLocalState 1 [107] = some (.uint 0) ∧
    AppLocalGetEx.execute (fun _ => .ok c6Account)
        [.bytes [107], .uint 1, .uint 0] = .ok [.uint 0, .uint 0] := by
  exact ⟨rfl, rfl⟩

/-! ## Claim C10: algo transfers conserve the total balance -/

/-- C10: a successful `Ctx.transferAlgo` in which the `closeRemainderTo`
address, when set, differs from the sender leaves the sum of the micro-algo
balances over all accounts unchanged. -/
theorem transferAlgo_conserves_total (st st' : State) (t : ExecParams)
    (hnd : (st.accounts.map Prod.fst).Nodup)
    (hclose : ∀ c, t.closeRemainderTo = some c → c ≠ t.fromAccountAddr)
    (h : Ctx.transferAlgo st t = .ok st') :
    st'.totalAlgo = st.totalAlgo := by
  unfold Ctx.transferAlgo at h
  rw [except_bind_ok_iff] at h
  obtain ⟨fromAcc, hfrom, h⟩ := h
  try simp only at h
  rw [except_bind_ok_iff] at h
  obtain ⟨toAcc, hto, h⟩ := h
  try simp only at h
  rw [except_bind_ok_iff] at h
  obtain ⟨u, hmb, h⟩ := h
  try simp only at h
  have hfromL : assocLookup st.accounts t.fromAccountAddr = some fromAcc :=
    (getAccount_ok_iff st t.fromAccountAddr fromAcc).mp hfrom
  have hnd1 := updateAccount_nodup st t.fromAccountAddr
    (fun a => { a with amount := a.amount - t.amountMicroAlgos }) hnd
  have ht1 : (st.updateAccount t.fromAccountAddr
      (fun a => { a with amount := a.amount - t.amountMicroAlgos })).totalAlgo =
      st.totalAlgo + (- t.amountMicroAlgos) :=
    totalAlgo_update_delta st t.fromAccountAddr _ (- t.amountMicroAlgos)
      (fun a => by simp only; ring) hnd fromAcc hfromL
  set st1 := st.updateAccount t.fromAccountAddr
    (fun a => { a with amount := a.amount - t.amountMicroAlgos }) with hst1
  have hto1 : ∃ w, assocLookup st1.accounts t.toAccountAddr = some w := by
    by_cases hft : t.toAccountAddr = t.fromAccountAddr
    · refine ⟨{ fromAcc with amount := fromAcc.amount - t.amountMicroAlgos }, ?_⟩
      rw [hst1, updateAccount_accounts, hft, assocLookup_update_self, hfromL]
      rfl
    · refine ⟨toAcc, ?_⟩
      rw [hst1, updateAccount_accounts, assocLookup_update_other _ _ _ _ hft]
      exact (getAccount_ok_iff st t.toAccountAddr toAcc).mp hto
  obtain ⟨w, hw⟩ := hto1
  have hnd2 := updateAccount_nodup st1 t.toAccountAddr
    (fun a => { a with amount := a.amount + t.amountMicroAlgos }) hnd1
  have ht2 : (st1.updateAccount t.toAccountAddr
      (fun a => { a with amount := a.amount + t.amountMicroAlgos })).totalAlgo =
      st1.totalAlgo + t.amountMicroAlgos :=
    totalAlgo_update_delta st1 t.toAccountAddr _ t.amountMicroAlgos
      (fun a => by simp only) hnd1 w hw
  set st2 := st1.updateAccount t.toAccountAddr
    (fun a => { a with amount := a.amount + t.amountMicroAlgos }) with hst2
  have htot2 : st2.totalAlgo = st.totalAlgo := by
    rw [ht2, ht1]
    ring
  cases hcl : t.closeRemainderTo with
  | none =>
    rw [hcl] at h
    try simp only at h
    injection h with h
    rw [← h]
    exact htot2
  | some closeAddr =>
    rw [hcl] at h
    try simp only at h
    rw [except_bind_ok_iff] at h
    obtain ⟨closeAcc, hclacc, h⟩ := h
    try simp only at h
    rw [except_bind_ok_iff] at h
    obtain ⟨fromNow, hfromNow, h⟩ := h
    try simp only at h
    injection h with h
    have hne : closeAddr ≠ t.fromAccountAddr := hclose closeAddr hcl
    have hclL : assocLookup st2.accounts closeAddr = some closeAcc :=
      (getAccount_ok_iff st2 closeAddr closeAcc).mp hclacc
    have hfn : assocLookup st2.accounts t.fromAccountAddr = some fromNow :=
      (getAccount_ok_iff st2 t.fromAccountAddr fromNow).mp hfromNow
    have ht3 : (st2.updateAccount closeAddr
        (fun a => { a with amount := a.amount + fromNow.amount })).totalAlgo =
        st2.totalAlgo + fromNow.amount :=
      totalAlgo_update_delta st2 closeAddr _ fromNow.amount
        (fun a => by simp only) hnd2 closeAcc hclL
    set st3 := st2.updateAccount closeAddr
      (fun a => { a with amount := a.amount + fromNow.amount }) with hst3
    have hnd3 := updateAccount_nodup st2 closeAddr
      (fun a => { a with amount := a.amount + fromNow.amount }) hnd2
    have hfn3 : assocLookup st3.accounts t.fromAccountAddr = some fromNow := by
      rw [hst3, updateAccount_accounts, assocLookup_update_other _ _ _ _ (Ne.symm hne)]
      exact hfn
    have ht4 : (st3.updateAccount t.fromAccountAddr
        (fun a => { a with amount := 0 })).totalAlgo =
        st3.totalAlgo + ({ fromNow with amount := 0 } : StoreAccount).amount
          - fromNow.amount :=
      totalAlgo_update st3 t.fromAccountAddr _ fromNow hnd3 hfn3
    rw [← h, ht4, ht3, htot2]
    simp

/-- Witness for C10: alice sends 100 to bob, closing the remainder to chris;
the total balance 1000 + 500 + 7 is conserved. -/
theorem transferAlgo_conserves_total_witness :
    ∃ st', Ctx.transferAlgo c10Store c10Pay = .ok st' ∧
      st'.totalAlgo = c10Store.totalAlgo := by
  obtain ⟨st', hst⟩ : ∃ st', Ctx.transferAlgo c10Store c10Pay = .ok st' := ⟨_, rfl⟩
  have hclose : ∀ c, c10Pay.closeRemainderTo = some c → c ≠ c10Pay.fromAccountAddr := by
    intro c hc
    have h2 : some "chris" = some c := hc
    cases h2
    decide
  exact ⟨st', hst,
    transferAlgo_conserves_total c10Store st' c10Pay (by decide) hclose hst⟩

/-! ## Claim C2: ClearSSC semantics -/

theorem closeApp_removes_local_state (st st2 : State) (sender : String) (appId : Nat)
    (h : Ctx.closeApp st sender appId = .ok st2) :
    ∃ acc2, assocLookup st2.accounts sender = some acc2 ∧
      assocLookup acc2.appsLocalState appId = none := by
  unfold Ctx.closeApp at h
  rw [except_bind_ok_iff] at h
  obtain ⟨acc, hacc, h⟩ := h
  try simp only at h
  rw [except_bind_ok_iff] at h
  obtain ⟨app, happ, h⟩ := h
  try simp only at h
  injection h with h
  refine ⟨{ acc with appsLocalState := assocErase appId acc.appsLocalState }, ?_, ?_⟩
  · rw [← h, updateAccount_accounts, assocLookup_update_self,
      (getAccount_ok_iff st sender acc).mp hacc]
    rfl
  · exact assocLookup_erase_self appId acc.appsLocalState

/-- C2: a `ClearSSC` transaction whose clear program throws the
`REJECTED_BY_LOGIC` error (number 1007) still removes the caller's local
state for the application and is accepted (the group keeps processing and
`clearErrorBool` is returned as `true`); a clear program failing with any
other fatal error rejects the group. -/
theorem clear_ssc_rejected_by_logic (runProg : RunFn) (st st1 : State) (t : ExecParams)
    (app : SSCAttributesM)
    (hkind : t.kind = .ClearSSC) (hsign : t.sign = .SecretKey) (hlsig : t.lsig = none)
    (hfee : Ctx.deductFee st t.fromAccountAddr t.fee = .ok st1)
    (happ : Ctx.getApp st1 t.appId = .ok app) :
    (∀ e stp st2, runProg app.clearStateProgram .STATEFUL st1 = .error (e, stp) →
      e.number = 1007 →
      Ctx.closeApp stp t.fromAccountAddr t.appId = .ok st2 →
      Ctx.processTransactions runProg st [t] = .ok (st2, true) ∧
        ∃ acc2, assocLookup st2.accounts t.fromAccountAddr = some acc2 ∧
          assocLookup acc2.appsLocalState t.appId = none) ∧
    (∀ e stp, runProg app.clearStateProgram .STATEFUL st1 = .error (e, stp) →
      e.number ≠ 1007 →
      Ctx.processTransactions runProg st [t] = .error e) := by
  constructor
  · intro e stp st2 hrun h1007 hclose2
    constructor
    · simp only [Ctx.processTransactions, Ctx.processTransactionsAux, Ctx.processTxn,
        Ctx.processTxnPayload, Runtime.assertAmbiguousTxnParams, hfee, hkind, hsign, hlsig,
        happ, hrun, hclose2, h1007, Bind.bind, Except.bind, Option.isSome_none,
        Bool.false_or, and_false, if_false, if_true, reduceCtorEq, reduceIte]
    · exact closeApp_removes_local_state stp st2 t.fromAccountAddr t.appId hclose2
  · intro e stp hrun h1007
    simp only [Ctx.processTransactions, Ctx.processTransactionsAux, Ctx.processTxn,
      Ctx.processTxnPayload, Runtime.assertAmbiguousTxnParams, hfee, hkind, hsign, hlsig,
      happ, hrun, h1007, Bind.bind, Except.bind, Option.isSome_none,
      Bool.false_or, and_false, if_false, reduceCtorEq, reduceIte]

/-- Witness for C2: john clears app 1 while the clear program is rejected by
logic; the group is accepted and john's local state for app 1 is gone. -/
theorem clear_ssc_rejected_by_logic_witness :
    ∃ st2, Ctx.processTransactions c2RunClear c2Store [c2Txn] = .ok (st2, true) ∧
      ∃ acc2, assocLookup st2.accounts "john" = some acc2 ∧
        assocLookup acc2.appsLocalState 1 = none := by
  obtain ⟨st2, hclose⟩ : ∃ s, Ctx.closeApp c2St1 "john" 1 = .ok s := ⟨_, rfl⟩
  have h := (clear_ssc_rejected_by_logic c2RunClear c2Store c2St1 c2Txn c2App
    rfl rfl rfl rfl rfl).1 .REJECTED_BY_LOGIC c2St1 st2 rfl rfl hclose
  exact ⟨st2, h.1, h.2⟩

/-! ## Claim C5: the amended fee-deduction ordering -/

/-- C5 (amended): in `Ctx.processTransactions` the fee of each transaction is
deducted from its sender immediately before that transaction's own payload
executes, with the transactions processed in declared order; a failing fee
deduction (e.g. a minimum-balance violation) rejects the whole group with
that error. -/
theorem fee_deducted_before_own_payload (runProg : RunFn) (st : State) (clr : Bool)
    (t : ExecParams) (rest : List ExecParams) :
    (Ctx.processTransactionsAux runProg st clr (t :: rest) =
      match Ctx.deductFee st t.fromAccountAddr t.fee with
      | .error e => .error e
      | .ok st1 =>
        match Ctx.processTxnPayload runProg st1 t with
        | .error e => .error e
        | .ok r => Ctx.processTransactionsAux runProg r.1 (clr || r.2) rest) ∧
    (∀ e, Ctx.deductFee st t.fromAccountAddr t.fee = .error e →
      Ctx.processTransactionsAux runProg st clr (t :: rest) = .error e) := by
  have hstep : Ctx.processTransactionsAux runProg st clr (t :: rest) =
      match Ctx.deductFee st t.fromAccountAddr t.fee with
      | .error e => .error e
      | .ok st1 =>
        match Ctx.processTxnPayload runProg st1 t with
        | .error e => .error e
        | .ok r => Ctx.processTransactionsAux runProg r.1 (clr || r.2) rest := by
    cases hd : Ctx.deductFee st t.fromAccountAddr t.fee with
    | error e =>
      simp [Ctx.processTransactionsAux, Ctx.processTxn, hd, Bind.bind, Except.bind]
    | ok st1 =>
      cases hp : Ctx.processTxnPayload runProg st1 t with
      | error e =>
        simp [Ctx.processTransactionsAux, Ctx.processTxn, hd, hp, Bind.bind, Except.bind]
      | ok r =>
        simp [Ctx.processTransactionsAux, Ctx.processTxn, hd, hp, Bind.bind, Except.bind]
  refine ⟨hstep, fun e he => ?_⟩
  rw [hstep, he]

/-- Witness for the amended C5: a transaction whose sender does not exist
fails during fee deduction and rejects the whole group. -/
theorem fee_deducted_before_own_payload_witness :
    Ctx.processTransactionsAux noRunFn c5Store false
      [mkPay "zoe" "bob" 1 1, mkPay "alice" "bob" 1 1] = .error .ACCOUNT_DOES_NOT_EXIST :=
  (fee_deducted_before_own_payload noRunFn c5Store false (mkPay "zoe" "bob" 1 1)
    [mkPay "alice" "bob" 1 1]).2 .ACCOUNT_DOES_NOT_EXIST rfl

/-! ## Claim C6: the amended `did_exist` semantics -/

/-- C6 (amended): `app_local_get_ex` and `app_global_get_ex` push a flag of 0
or 1 on top of a value; the flag is 1 exactly when the queried key exists
**and** its stored value is not `Uint64(0)` (a stored `Uint64(0)` is reported
as absent because the source tests the value with JavaScript truthiness);
when the flag is 0 the accompanying value is `Uint64(0)`, and when it is 1
the accompanying value is the stored one. -/
theorem app_get_ex_flag_semantics
    (gA : Nat → Except ErrCode StoreAccount) (gS : Nat → List Nat → Option StackElem)
    (tx : TxM) (acc : StoreAccount) (accIdx : Nat) (key : List Nat) (rest : TEALStack)
    (hacc : gA accIdx = .ok acc) :
    (∃ flag value,
      AppLocalGetEx.execute gA (.bytes key :: .uint tx.apid :: .uint accIdx :: rest) =
        .ok (.uint flag :: value :: rest) ∧
      (flag = 0 ∨ flag = 1) ∧
      (flag = 1 ↔ ∃ v, acc.getLocalState tx.apid key = some v ∧ v ≠ .uint 0) ∧
      (flag = 0 → value = .uint 0) ∧
      (flag = 1 → acc.getLocalState tx.apid key = some value)) ∧
    (∃ flag value,
      AppGlobalGetEx.execute gS tx (.bytes key :: .uint 0 :: rest) =
        .ok (.uint flag :: value :: rest) ∧
      (flag = 0 ∨ flag = 1) ∧
      (flag = 1 ↔ ∃ v, gS tx.apid key = some v ∧ v ≠ .uint 0) ∧
      (flag = 0 → value = .uint 0) ∧
      (flag = 1 → gS tx.apid key = some value)) := by
  constructor
  · have hred : AppLocalGetEx.execute gA (.bytes key :: .uint tx.apid :: .uint accIdx :: rest) =
        (match acc.getLocalState tx.apid key, jsTruthy (acc.getLocalState tx.apid key) with
         | some v, true => .ok (.uint 1 :: v :: rest)
         | _, _ => .ok (.uint 0 :: .uint 0 :: rest)) := by
      simp [AppLocalGetEx.execute, Op.assertBytes, Op.assertBigInt, Bind.bind, Except.bind, hacc]
    cases hval : acc.getLocalState tx.apid key with
    | none =>
      refine ⟨0, .uint 0, ?_, Or.inl rfl, ?_, fun _ => rfl, fun hh => absurd hh (by decide)⟩
      · rw [hred, hval]
      · simp [hval]
    | some v =>
      cases v with
      | uint n =>
        cases n with
        | zero =>
          refine ⟨0, .uint 0, ?_, Or.inl rfl, ?_, fun _ => rfl, fun hh => absurd hh (by decide)⟩
          · rw [hred, hval]
            simp [jsTruthy]
          · simp [hval]
        | succ m =>
          refine ⟨1, .uint (m + 1), ?_, Or.inr rfl, ?_, fun hh => absurd hh (by decide), fun _ => rfl⟩
          · rw [hred, hval]
            simp [jsTruthy]
          · simp [hval]
      | bytes bs =>
        refine ⟨1, .bytes bs, ?_, Or.inr rfl, ?_, fun hh => absurd hh (by decide), fun _ => rfl⟩
        · rw [hred, hval]
          simp [jsTruthy]
        · simp [hval]
  · have hred : AppGlobalGetEx.execute gS tx (.bytes key :: .uint 0 :: rest) =
        (match gS tx.apid key, jsTruthy (gS tx.apid key) with
         | some v, true => .ok (.uint 1 :: v :: rest)
         | _, _ => .ok (.uint 0 :: .uint 0 :: rest)) := by
      simp [AppGlobalGetEx.execute, Op.assertBytes, Op.assertBigInt, Bind.bind, Except.bind,
        pure, Except.pure]
    cases hval : gS tx.apid key with
    | none =>
      refine ⟨0, .uint 0, ?_, Or.inl rfl, ?_, fun _ => rfl, fun hh => absurd hh (by decide)⟩
      · rw [hred, hval]
      · simp [hval]
    | some v =>
      cases v with
      | uint n =>
        cases n with
        | zero =>
          refine ⟨0, .uint 0, ?_, Or.inl rfl, ?_, fun _ => rfl, fun hh => absurd hh (by decide)⟩
          · rw [hred, hval]
            simp [jsTruthy]
          · simp [hval]
        | succ m =>
          refine ⟨1, .uint (m + 1), ?_, Or.inr rfl, ?_, fun hh => absurd hh (by decide), fun _ => rfl⟩
          · rw [hred, hval]
            simp [jsTruthy]
          · simp [hval]
      | bytes bs =>
        refine ⟨1, .bytes bs, ?_, Or.inr rfl, ?_, fun hh => absurd hh (by decide), fun _ => rfl⟩
        · rw [hred, hval]
          simp [jsTruthy]
        · simp [hval]

/-- Witness for the amended C6 at a stored non-zero value. -/
theorem app_get_ex_flag_semantics_witness :
    (∃ flag value,
      AppLocalGetEx.execute (fun _ => .ok c6AccountNz)
          (.bytes [107] :: .uint 1 :: .uint 0 :: []) =
        .ok (.uint flag :: value :: []) ∧
      (flag = 0 ∨ flag = 1) ∧
      (flag = 1 ↔ ∃ v, c6AccountNz.getLocalState 1 [107] = some v ∧ v ≠ .uint 0) ∧
      (flag = 0 → value = .uint 0) ∧
      (flag = 1 → c6AccountNz.getLocalState 1 [107] = some value)) ∧
    (∃ flag value,
      AppGlobalGetEx.execute (fun _ _ => some (.uint 9)) { apid := 1, apfa := [] }
          (.bytes [107] :: .uint 0 :: []) =
        .ok (.uint flag :: value :: []) ∧
      (flag = 0 ∨ flag = 1) ∧
      (flag = 1 ↔ ∃ v, (fun (_ : Nat) (_ : List Nat) => some (StackElem.uint 9)) 1 [107] = some v ∧ v ≠ .uint 0) ∧
      (flag = 0 → value = .uint 0) ∧
      (flag = 1 → (fun (_ : Nat) (_ : List Nat) => some (StackElem.uint 9)) 1 [107] = some value)) :=
  app_get_ex_flag_semantics (fun _ => .ok c6AccountNz) (fun _ _ => some (.uint 9))
    { apid := 1, apfa := [] } c6AccountNz 0 [107] [] rfl

/-! ## Claim C3: the acceptance rule at termination -/

/-- C3: for every program run that terminates without a fatal error, the
program is accepted exactly when the final stack contains one single value
and that value is a non-zero u64; a final stack of any other size, a zero
top value, or a byte-string top value yields `REJECTED_BY_LOGIC`. -/
theorem program_acceptance_rule (instrs : List Instruction) (fuel : Nat)
    (s0 : InterpreterState) (fin : TEALStack)
    (hterm : runLoop instrs fuel s0 = some (.ok fin)) :
    (executeProgram instrs fuel s0 = some (.ok ()) ↔ ∃ n, n ≠ 0 ∧ fin = [.uint n]) ∧
    (fin.length ≠ 1 → executeProgram instrs fuel s0 = some (.error .REJECTED_BY_LOGIC)) ∧
    (fin = [.uint 0] → executeProgram instrs fuel s0 = some (.error .REJECTED_BY_LOGIC)) ∧
    (∀ bs tl, fin = .bytes bs :: tl →
      executeProgram instrs fuel s0 = some (.error .REJECTED_BY_LOGIC)) := by
  have he : executeProgram instrs fuel s0 = some (finalVerdict fin) := by
    unfold executeProgram
    rw [hterm]
  rw [he]
  have hv : finalVerdict fin = .ok () ↔ ∃ n, n ≠ 0 ∧ fin = [.uint n] := by
    cases fin with
    | nil => simp [finalVerdict]
    | cons a tl =>
      cases tl with
      | nil =>
        cases a with
        | uint n =>
          by_cases hn : n = 0
          · subst hn
            simp [finalVerdict]
          · constructor
            · intro _
              exact ⟨n, hn, rfl⟩
            · intro _
              simp [finalVerdict, hn]
        | bytes bs => simp [finalVerdict]
      | cons b tl2 =>
        cases a <;> simp [finalVerdict]
  have hrj : ∀ s : TEALStack, finalVerdict s ≠ .ok () →
      finalVerdict s = .error .REJECTED_BY_LOGIC := by
    intro s hne
    cases s with
    | nil => rfl
    | cons a tl =>
      cases tl with
      | nil =>
        cases a with
        | uint n =>
          by_cases hn : n = 0
          · subst hn
            rfl
          · exact absurd (by simp [finalVerdict, hn]) hne
        | bytes bs => rfl
      | cons b tl2 => cases a <;> rfl
  refine ⟨by simpa using hv, ?_, ?_, ?_⟩
  · intro hlen
    rw [hrj fin ?_]
    intro hok
    obtain ⟨n, hn, hfin⟩ := hv.mp hok
    rw [hfin] at hlen
    simp at hlen
  · intro hfin
    subst hfin
    rfl
  · intro bs tl hfin
    subst hfin
    rfl

/-- Witness for C3: the program `int 5; return` terminates with stack
`[Uint64 5]` and is accepted. -/
theorem program_acceptance_rule_witness :
    executeProgram [.intpush 5, .ret] 3 { instructionIndex := 0, stack := [] } =
      some (.ok ()) :=
  (program_acceptance_rule [.intpush 5, .ret] 3 { instructionIndex := 0, stack := [] }
    [.uint 5] rfl).1.mpr ⟨5, by decide, rfl⟩

end AlgoBuilder
